import Mathlib

/-!
Verification of the cctools CoreCommerce scraping client (`cctools.py`)
and the price calculator (`calc_price.py`).

The Python code is shallowly embedded:

* CSV rows (Python `dict` objects produced by `csv.DictReader`) are
  association lists `List (String × String)` with first-match lookup and
  in-place update (`rowGet` / `rowSet`).
* Python string operations used by `uniquify_header` (`strip`, `split(",")`,
  `",".join`, `"{} [{}]".format`) are modelled by structurally recursive
  functions over the underlying character lists, so that everything reduces
  inside the kernel.
* The on-disk cache plus in-memory memoization of `CCBrowser` getters is a
  state machine `CacheState` with an explicit effect count (downloads and
  disk reads) per call.
* The `_do_export` polling loop is modelled with explicit fuel against an
  arbitrary stream of server responses.
* Float arithmetic in `calc_price.py` is modelled over `ℚ`.
-/

namespace CCTools

/-! ### Python string primitives (character-list level) -/

/-- Whitespace recognised by the Python `str.strip()` method. -/
def isPySpace (c : Char) : Bool :=
  c = ' ' || c = '\t' || c = '\n' || c = '\r' || c = '\x0b' || c = '\x0c'

/-- Remove trailing Python whitespace from a character list. -/
def dropTrailingSpace (cs : List Char) : List Char :=
  (cs.reverse.dropWhile isPySpace).reverse

/-- Characters of `str.strip()`: drop leading and trailing whitespace. -/
def stripChars (cs : List Char) : List Char :=
  dropTrailingSpace (cs.dropWhile isPySpace)

/-- Model of Python `line.strip()`. -/
def pyStrip (s : String) : String :=
  ⟨stripChars s.data⟩

/-- Characters of `str.split(sep)` for a one-character separator: split on
every occurrence, never empty. -/
def splitChars (sep : Char) : List Char → List (List Char)
  | [] => [[]]
  | c :: rest =>
      match splitChars sep rest with
      | [] => [[]]
      | f :: fs => if c = sep then [] :: f :: fs else (c :: f) :: fs

/-- Model of Python `s.split(sep)` for a one-character separator. -/
def pySplitOn (sep : Char) (s : String) : List String :=
  (splitChars sep s.data).map (fun cs => ⟨cs⟩)

/-- Model of Python `line.split(",")`. -/
def pySplit (s : String) : List String :=
  pySplitOn ',' s

/-- Characters of `sep.join(fields)` for a one-character separator. -/
def joinChars (sep : Char) : List (List Char) → List Char
  | [] => []
  | [cs] => cs
  | cs :: rest => cs ++ sep :: joinChars sep rest

/-- Model of Python `sep.join(fields)` for a one-character separator. -/
def joinWith (sep : Char) (fields : List String) : String :=
  ⟨joinChars sep (fields.map String.data)⟩

/-- Model of Python `",".join(fields)`. -/
def joinComma (fields : List String) : String :=
  joinWith ',' fields

/-- Decimal digit character for a value below ten. -/
def digitChar (n : Nat) : Char :=
  if n = 0 then '0' else if n = 1 then '1' else if n = 2 then '2'
  else if n = 3 then '3' else if n = 4 then '4' else if n = 5 then '5'
  else if n = 6 then '6' else if n = 7 then '7' else if n = 8 then '8'
  else '9'

/-- Decimal digits of a natural number, with explicit fuel so that the
recursion is structural and kernel-reducible. -/
def natToChars : Nat → Nat → List Char
  | 0, _ => []
  | fuel + 1, n =>
      if n < 10 then [digitChar n]
      else natToChars fuel (n / 10) ++ [digitChar (n % 10)]

/-- Decimal rendering of a natural number (Python `"{}".format(count)`). -/
def natStr (n : Nat) : String :=
  ⟨natToChars (n + 1) n⟩

/-! ### `uniquify_header` (cctools.py lines 63-77)

```python
def uniquify_header(line):
    fields = line.strip().split(",")
    for i, field in enumerate(fields):
        if field in fields[i + 1:]:
            count = 1
            for j in range(i, len(fields)):
                if fields[j] == field:
                    fields[j] = "{} [{}]".format(field, count)
                    count += 1
    return ",".join(fields) + "\n"
```
-/

/-- Inner `for j in range(i, len(fields))` loop: replace every occurrence of
`field` in the remaining suffix by `field ++ " [count]"`, incrementing the
count at each replacement. -/
def renameFrom (field : String) : Nat → List String → List String
  | _, [] => []
  | count, f :: rest =>
      if f = field then
        (field ++ " [" ++ natStr count ++ "]") :: renameFrom field (count + 1) rest
      else
        f :: renameFrom field count rest

/-- One iteration of the outer `for i, field in enumerate(fields)` loop.
`field` is the element currently at index `i` (the Python iterator observes
mutations made by earlier iterations). -/
def uniquifyStep (fields : List String) (i : Nat) : List String :=
  let field := fields.getD i ""
  if field ∈ fields.drop (i + 1) then
    fields.take i ++ renameFrom field 1 (fields.drop i)
  else
    fields

/-- The whole double loop of `uniquify_header`, at the field-list level. -/
def uniquifyFields (fields : List String) : List String :=
  (List.range fields.length).foldl uniquifyStep fields

/-- Model of `uniquify_header`: make names unique in a CSV header line. -/
def uniquify_header (line : String) : String :=
  joinComma (uniquifyFields (pySplit (pyStrip line))) ++ "\n"

/-! ### `calc_price.py` — modelled over `ℚ` (the Python code uses floats) -/

/-- Model of `calc_event_price(retail_price, discount_percent, sales_tax_percent)`
(calc_price.py lines 29-42): apply the discount, impose sales tax, round to
the nearest dollar via `floor(price + 0.5)`, and clamp below at `1.0`. -/
def calc_event_price (retail_price discount_percent sales_tax_percent : ℚ) : ℚ :=
  let price := retail_price * (1 - discount_percent / 100)
  let price := price * (1 + sales_tax_percent / 100)
  max 1 (⌊price + 1 / 2⌋ : ℚ)

/-! ### CSV rows as Python dicts

A row produced by `csv.DictReader` is a Python dict from column name to
string value; modelled as an association list with first-match lookup.
-/

/-- A CSV row: a Python dict from column name to value. -/
abbrev Row : Type := List (String × String)

/-- Lookup `row[key]` (`""` stands for an absent key; the claims below only
read keys that are present). -/
def rowGet (r : Row) (k : String) : String :=
  match r.find? (fun kv => kv.1 = k) with
  | some kv => kv.2
  | none => ""

/-- Membership test `key in row`. -/
def rowHas (r : Row) (k : String) : Bool :=
  r.any (fun kv => kv.1 = k)

/-- Assignment `row[key] = value`: replace the value in place when the key exists,
append a new binding otherwise (Python dict assignment). -/
def rowSet (r : Row) (k v : String) : Row :=
  if rowHas r k then
    r.map (fun kv => if kv.1 = k then (k, v) else kv)
  else
    r ++ [(k, v)]

/-! ### Data normalization (`_clean_*`, cctools.py lines 264-279, 321-329,
758-787, 947-952) -/

/-- Coerce each listed boolean column of a row to `"N"` unless its value is
already `"Y"` or `"N"` (shared shape of `_clean_products` and
`_clean_personalizations`). -/
def cleanRowBooleans (booleans : List String) (r : Row) : Row :=
  booleans.foldl
    (fun acc b =>
      if rowGet acc b = "Y" ∨ rowGet acc b = "N" then acc
      else rowSet acc b "N")
    r

/-- Boolean-typed product columns (`_clean_products`, lines 761-782). -/
def productBooleans : List String :=
  [ "Available",
    "Customer Must Add To Cart To See Sales Price",
    "Discontinued Item",
    "Display Facebook LIKE",
    "Display Facebook Link",
    "Display Twitter Link",
    "Eligible For Reward Points",
    "Featured Product",
    "Ignore Default Images",
    "Include in Bing Product Feed",
    "Include in Google Product Feed",
    "Password protect this product",
    "Request a Lower Price",
    "Taxable (GST)",
    "Taxable (HST)",
    "Taxable (PST)",
    "Taxable",
    "Use Main Photo as Product Detail Thumbnail",
    "Use Sale Price",
    "Use Tab Navigation" ]

/-- Boolean-typed personalization columns (`_clean_personalizations`,
lines 267-274). -/
def personalizationBooleans : List String :=
  [ "Answer Enabled",
    "Default",
    "Exclude from best seller report",
    "Question Enabled",
    "Required",
    "Track Inventory" ]

/-- Model of `CCBrowser._clean_products`. -/
def clean_products (rows : List Row) : List Row :=
  rows.map (cleanRowBooleans productBooleans)

/-- Model of `CCBrowser._clean_personalizations`. -/
def clean_personalizations (rows : List Row) : List Row :=
  rows.map (cleanRowBooleans personalizationBooleans)

/-- Python `key.startswith(prefix)`. -/
def pyStartswith (s pre : String) : Bool :=
  pre.data.isPrefixOf s.data

/-- Model of `CCBrowser._clean_product_options`: for every key of the row that starts
with `"Use First Option Value"`, coerce a value outside `{Y,N}` to `"N"`. -/
def clean_product_option (r : Row) : Row :=
  r.foldl
    (fun acc kv =>
      if kv.1 ≠ "" ∧ pyStartswith kv.1 "Use First Option Value" then
        if kv.2 = "Y" ∨ kv.2 = "N" then acc else rowSet acc kv.1 "N"
      else acc)
    r

/-- Model of `CCBrowser._clean_product_options` over the whole list. -/
def clean_product_options (rows : List Row) : List Row :=
  rows.map clean_product_option

/-- Model of `CCBrowser._clean_categories` (cctools.py lines 947-952), exactly as
written in the source: the guard tests `"Hide This Category From Customers"`
but the assignment writes to the key `"Available"`:

```python
for product in self._categories:
    if not product["Hide This Category From Customers"] in ("Y", "N"):
        product["Available"] = "N"
```
-/
def clean_categories (rows : List Row) : List Row :=
  rows.map
    (fun r =>
      if rowGet r "Hide This Category From Customers" = "Y" ∨
          rowGet r "Hide This Category From Customers" = "N" then r
      else rowSet r "Available" "N")

/-! ### Cache layer (`_is_file_expired`, lines 186-193, and the shared
shape of `get_products` / `get_categories` / `get_personalizations` /
`get_product_options`, lines 281-299, 331-355, 789-807, 954-972)

The cache file is `Option (ℚ × List Row)`: `none` when the file does not
exist, otherwise its modification time (`time.time()` is a float, modelled
as `ℚ`) and the rows it parses to.  Effects record how many downloads
(network fetches) and disk reads a call performs.
-/

/-- Model of `CCBrowser._is_file_expired`:

```python
if not os.path.exists(filename):
    return True
mtime = os.stat(filename).st_mtime
expire_time = mtime + self._cache_ttl
now = time.time()
return expire_time < now
```
-/
def is_file_expired (file : Option (ℚ × List Row)) (cache_ttl now : ℚ) : Bool :=
  match file with
  | none => true
  | some (mtime, _) => decide (mtime + cache_ttl < now)

/-- Observable effects of one getter call. -/
structure Effects where
  downloads : Nat
  diskReads : Nat
  deriving DecidableEq, Repr

/-- Mutable state of one cached resource: the memoized instance attribute
(e.g. `self._products`) and the on-disk cache file. -/
structure CacheState where
  memo : Option (List Row)
  file : Option (ℚ × List Row)

/-- Shared body of the four cached resource getters:

```python
if self._products is None:
    filename = os.path.join(self._cache_dir, "products.csv")
    with lockfile.FileLock(self._download_lock_filename):
        if self._is_file_expired(filename):
            self._download_products_csv(filename)
        self._products = list(csv.DictReader(open(filename)))
        if self._clean:
            self._clean_products()
return self._products
```

`cleanFn` is the per-resource `_clean_*` step, `clean` the `clean` flag
of the browser, `downloadContent` the rows the site would serve, `now` the
time of the call.  Returns the new state, the returned list, and the
effects performed. -/
def getCachedResource (cleanFn : List Row → List Row) (clean : Bool)
    (downloadContent : List Row) (cache_ttl now : ℚ) (s : CacheState) :
    CacheState × List Row × Effects :=
  match s.memo with
  | some rows => (s, rows, ⟨0, 0⟩)
  | none =>
      let fileDl :=
        if is_file_expired s.file cache_ttl now then
          ((some (now, downloadContent) : Option (ℚ × List Row)), 1)
        else (s.file, 0)
      let content := match fileDl.1 with
        | some (_, rows) => rows
        | none => []
      let rows := if clean then cleanFn content else content
      ({ memo := some rows, file := fileDl.1 }, rows, ⟨fileDl.2, 1⟩)

/-- Model of `CCBrowser.get_products` (lines 789-807). -/
def get_products (clean : Bool) (downloadContent : List Row)
    (cache_ttl now : ℚ) (s : CacheState) : CacheState × List Row × Effects :=
  getCachedResource clean_products clean downloadContent cache_ttl now s

/-- Model of `CCBrowser.get_categories` (lines 954-972). -/
def get_categories (clean : Bool) (downloadContent : List Row)
    (cache_ttl now : ℚ) (s : CacheState) : CacheState × List Row × Effects :=
  getCachedResource clean_categories clean downloadContent cache_ttl now s

/-- Model of `CCBrowser.get_personalizations` (lines 281-299). -/
def get_personalizations (clean : Bool) (downloadContent : List Row)
    (cache_ttl now : ℚ) (s : CacheState) : CacheState × List Row × Effects :=
  getCachedResource clean_personalizations clean downloadContent cache_ttl now s

/-- Model of `CCBrowser.get_product_options` (lines 331-355; the extra
`repair_product_options_csv` step happens inside the single download). -/
def get_product_options (clean : Bool) (downloadContent : List Row)
    (cache_ttl now : ℚ) (s : CacheState) : CacheState × List Row × Effects :=
  getCachedResource clean_product_options clean downloadContent cache_ttl now s

/-! ### Export poll loop (`_do_export`, cctools.py lines 195-242)

```python
current = 0
while True:
    url = ...("&current={}").format(ajax_controller_url, current)
    response = self._browser.open(url).read()
    response_object = json.loads(response)
    if response_object["percentComplete"] == 100:
        break
    current = response_object["current"]
# Fetch the result file.
self._browser.retrieve(url, filename)
```

The server is modelled as a stream `responses : Nat → ExportResponse`
giving the JSON body answered to the k-th request of the session.  The
loop is run with explicit fuel; when it terminates it returns the list of
`current` cursor values sent, one per request, in order.
-/

/-- One parsed `processExportCycle` JSON response. -/
structure ExportResponse where
  current : Int
  percentComplete : Int
  deriving DecidableEq, Repr

/-- The `while True` loop of `_do_export`, started at request index `k`
with cursor `cur`.  Returns `some` of the cursors sent (in request order)
when the loop breaks within `fuel` requests, `none` otherwise. -/
def doExportLoop (responses : Nat → ExportResponse) :
    Nat → Int → Nat → Option (List Int)
  | _, _, 0 => none
  | k, cur, fuel + 1 =>
      let resp := responses k
      if resp.percentComplete = 100 then some [cur]
      else (doExportLoop responses (k + 1) resp.current fuel).map (cur :: ·)

/-- The poll loop of `CCBrowser._do_export` from its initial state
(`current = 0`, first request). -/
def do_export (responses : Nat → ExportResponse) (fuel : Nat) :
    Option (List Int) :=
  doExportLoop responses 0 0 fuel

/-- Declarative cursor sequence: the cursor the client sends in request
`n` is `0` for the first request and the `current` of the previous response
afterwards. -/
def requestCursor (responses : Nat → ExportResponse) : Nat → Int
  | 0 => 0
  | n + 1 => (responses n).current

/-! ### Variant derivation (`get_variants`, cctools.py lines 496-656) -/

/-- The `personalization_keys` rename map (lines 502-543), in source
order; Python 2 dict iteration order is arbitrary, but all target keys are
distinct so the resulting dict does not depend on it. -/
def personalization_keys : List (String × String) :=
  [ ("Product SKU", "Product SKU"),
    ("Product Name", "Product Name"),
    ("Size", "Variant Size"),
    ("Price", "Variant Add Price"),
    ("SKU", "Variant SKU"),
    ("Main Photo", "Variant Main Photo (Image)"),
    ("Main Photo Alt / Title Tag", "Variant Main Photo (Alt / Title Tag)"),
    ("Main Photo Caption", "Variant Main Photo (Caption)"),
    ("Main Photo Image URL Link", "Variant Main Photo URL"),
    ("Main Photo Height", "Variant Main Photo URL Height"),
    ("Main Photo Width", "Variant Main Photo URL Width"),
    ("Large Photo", "Variant Large Pop-Up Photo (Image)"),
    ("Large Photo Alt / Title Tag",
      "Variant Large Pop-Up Photo (Alt / Title Tag)"),
    ("Large Photo Image URL Link", "Variant Large Popup Photo URL"),
    ("Large Photo Height", "Variant Large Popup Photo URL Height"),
    ("Large Photo Width", "Variant Large Popup Photo URL Width"),
    ("Default", "Variant Default"),
    ("Inventory Level", "Variant Inventory Level"),
    ("Low Inventory Notify Level", "Variant Notify Level"),
    ("Weight", "Variant Weight"),
    ("Cost", "Variant Add Cost") ]

/-- The `product_option_keys` tuple (lines 544-565). -/
def product_option_keys : List String :=
  [ "Product SKU",
    "Product Name",
    "Option Set SKU",
    "Option Set Price",
    "Option Set Weight",
    "Option Set Cost",
    "Option Set MSRP",
    "Option Set Main Photo (Image)",
    "Option Set Main Photo (Caption)",
    "Option Set Main Photo (Alt / Title Tag)",
    "Option Set Main Photo URL",
    "Option Set Main Photo URL Width",
    "Option Set Main Photo URL Height",
    "Option Set Large Pop-Up Photo (Image)",
    "Option Set Large Pop-Up Photo (Alt / Title Tag)",
    "Option Set Large Popup Photo URL",
    "Option Set Large Popup Photo URL Width",
    "Option Set Large Popup Photo URL Height",
    "Option Set Inventory Level",
    "Option Set Notify Level" ]

/-- Python `str.replace(pat, repl)` on character lists, with explicit fuel so the
recursion is structural (adequate for the non-empty patterns used here). -/
def replaceChars (pat repl : List Char) : Nat → List Char → List Char
  | 0, cs => cs
  | _ + 1, [] => []
  | fuel + 1, c :: cs =>
      if pat.isPrefixOf (c :: cs) then
        repl ++ replaceChars pat repl fuel ((c :: cs).drop pat.length)
      else
        c :: replaceChars pat repl fuel cs

/-- Model of Python `s.replace(pat, repl)`. -/
def pyReplace (s pat repl : String) : String :=
  ⟨replaceChars pat.data repl.data s.data.length s.data⟩

/-- The option-variant key renaming (lines 622-628):
`key.replace("Option Set", "Variant").replace("Cost", "Add Cost")
    .replace("Price", "Add Price")`. -/
def variantKey (key : String) : String :=
  pyReplace (pyReplace (pyReplace key "Option Set" "Variant") "Cost" "Add Cost")
    "Price" "Add Price"

/-- Build one variant row from a personalization row (lines 585-606).
`"Question|Answer".split("|")` is tuple-unpacked into
`(Variant Group, Variant Name)` in Python (which assumes exactly two
parts); the first two parts are used here. -/
def mkPersVariant (p : Row) : Row :=
  let variant : Row := [("Variant Type", "Personalization")]
  let variant :=
    personalization_keys.foldl
      (fun acc pk => rowSet acc pk.2 (rowGet p pk.1)) variant
  let qa := pySplitOn '|' (rowGet p "Question|Answer")
  let variant := rowSet variant "Variant Group" (qa.getD 0 "")
  let variant := rowSet variant "Variant Name" (qa.getD 1 "")
  let variant := rowSet variant "Variant Sort" (rowGet p "Answer Sort Order")
  rowSet variant "Variant Enabled"
    (if rowGet p "Answer Enabled" = "Y" ∧ rowGet p "Answer Enabled" = "Y"
      then "Y" else "N")

/-- Build one variant row from a product-option row (lines 617-654).  The
`for idx in range(1, 10)` loops break at the first missing
`"Option Group Name [idx]"` key (`takeWhile`, capped at index 9). -/
def mkOptionVariant (po : Row) : Row :=
  let variant : Row := [("Variant Type", "Option")]
  let variant :=
    product_option_keys.foldl
      (fun acc key => rowSet acc (variantKey key) (rowGet po key)) variant
  let idxs :=
    (List.range' 1 9).takeWhile
      (fun i => rowHas po ("Option Group Name [" ++ natStr i ++ "]"))
  let groupNames :=
    idxs.map (fun i => rowGet po ("Option Group Name [" ++ natStr i ++ "]"))
  let optionNames :=
    idxs.map (fun i => rowGet po ("Option Name [" ++ natStr i ++ "]"))
  let optionSorts :=
    idxs.map (fun i => rowGet po ("Option Sort [" ++ natStr i ++ "]"))
  let variant := rowSet variant "Variant Group" (joinWith ':' groupNames)
  let variant := rowSet variant "Variant Name" (joinWith ':' optionNames)
  let variant := rowSet variant "Variant Sort" (joinWith ':' optionSorts)
  rowSet variant "Variant Enabled" "Y"

/-- The per-product personalization / product-option match predicate
(lines 577-583 and 609-615). -/
def matchesProduct (name sku : String) (r : Row) : Bool :=
  rowGet r "Product Name" = name && rowGet r "Product SKU" = sku

/-- Variant rows contributed by one product (the body of the
`for product in products` loop, lines 572-654).  The `if len(...) > 0`
guards are no-ops on the empty list. -/
def variantsForProduct (product : Row)
    (personalizations product_options : List Row) : List Row :=
  let name := rowGet product "Product Name"
  let sku := rowGet product "SKU"
  let relPers := personalizations.filter (matchesProduct name sku)
  let relOpts := product_options.filter (matchesProduct name sku)
  relPers.map mkPersVariant ++ relOpts.map mkOptionVariant

/-- Model of `CCBrowser.get_variants` as a pure function of the three source
lists. -/
def get_variants (products personalizations product_options : List Row) :
    List Row :=
  products.flatMap
    (fun p => variantsForProduct p personalizations product_options)

/-! ## Lemmas about the row model -/

theorem rowGet_nil (k : String) : rowGet [] k = "" := rfl

theorem rowGet_cons (kv : String × String) (rest : Row) (k : String) :
    rowGet (kv :: rest) k = if kv.1 = k then kv.2 else rowGet rest k := by
  by_cases h : kv.1 = k <;> simp [rowGet, List.find?, h]

theorem rowHas_cons (kv : String × String) (rest : Row) (k : String) :
    rowHas (kv :: rest) k = (decide (kv.1 = k) || rowHas rest k) := rfl

theorem rowGet_map_update_ne (r : Row) (k v k' : String) (h : k' ≠ k) :
    rowGet (r.map (fun kv => if kv.1 = k then (k, v) else kv)) k' =
      rowGet r k' := by
  induction r with
  | nil => rfl
  | cons kv rest ih =>
      by_cases hk : kv.1 = k
      · have hkk : ¬ (k = k') := fun hh => h hh.symm
        have hkv : ¬ (kv.1 = k') := by
          rw [hk]; exact hkk
        simp [rowGet_cons, hk, hkk, hkv, ih]
      · by_cases hk' : kv.1 = k' <;> simp [rowGet_cons, hk, hk', ih, h]

theorem rowGet_map_update_self (r : Row) (k v : String)
    (h : rowHas r k = true) :
    rowGet (r.map (fun kv => if kv.1 = k then (k, v) else kv)) k = v := by
  induction r with
  | nil => simp [rowHas] at h
  | cons kv rest ih =>
      by_cases hk : kv.1 = k
      · simp [rowGet_cons, hk]
      · have hrest : rowHas rest k = true := by
          rw [rowHas_cons] at h
          simpa [hk] using h
        simp [rowGet_cons, hk, ih hrest]

theorem rowGet_append_single_ne (r : Row) (k v k' : String) (h : k' ≠ k) :
    rowGet (r ++ [(k, v)]) k' = rowGet r k' := by
  induction r with
  | nil =>
      have hkk : ¬ (k = k') := fun hh => h hh.symm
      simp [rowGet_nil, rowGet_cons, hkk]
  | cons kv rest ih =>
      by_cases hk' : kv.1 = k' <;> simp [rowGet_cons, hk', ih]

theorem rowGet_append_single_self (r : Row) (k v : String)
    (h : rowHas r k = false) :
    rowGet (r ++ [(k, v)]) k = v := by
  induction r with
  | nil => simp [rowGet_cons]
  | cons kv rest ih =>
      rw [rowHas_cons] at h
      have hk : ¬ (kv.1 = k) := by
        intro hkk
        simp [hkk] at h
      have hrest : rowHas rest k = false := by
        simpa [hk] using h
      simp [rowGet_cons, hk, ih hrest]

theorem rowGet_rowSet_self (r : Row) (k v : String) :
    rowGet (rowSet r k v) k = v := by
  unfold rowSet
  by_cases h : rowHas r k = true
  · simpa [h] using rowGet_map_update_self r k v h
  · have h' : rowHas r k = false := by
      simpa using h
    simpa [h'] using rowGet_append_single_self r k v h'

theorem rowGet_rowSet_ne (r : Row) (k v k' : String) (h : k' ≠ k) :
    rowGet (rowSet r k v) k' = rowGet r k' := by
  unfold rowSet
  by_cases hhas : rowHas r k = true
  · simpa [hhas] using rowGet_map_update_ne r k v k' h
  · have h' : rowHas r k = false := by
      simpa using hhas
    simpa [h'] using rowGet_append_single_ne r k v k' h

/-! ## Lemmas about boolean normalization -/

theorem cleanRowBooleans_cons (b' : String) (bs : List String) (r : Row) :
    cleanRowBooleans (b' :: bs) r =
      cleanRowBooleans bs
        (if rowGet r b' = "Y" ∨ rowGet r b' = "N" then r
          else rowSet r b' "N") := rfl

theorem cleanRowBooleans_preserves (bs : List String) (r : Row) (b : String)
    (h : rowGet r b = "Y" ∨ rowGet r b = "N") :
    rowGet (cleanRowBooleans bs r) b = rowGet r b := by
  induction bs generalizing r with
  | nil => rfl
  | cons b' bs ih =>
      rw [cleanRowBooleans_cons]
      by_cases hb' : rowGet r b' = "Y" ∨ rowGet r b' = "N"
      · rw [if_pos hb']
        exact ih r h
      · rw [if_neg hb']
        have hne : b ≠ b' := by
          intro hbb
          rw [hbb] at h
          exact hb' h
        have hget : rowGet (rowSet r b' "N") b = rowGet r b :=
          rowGet_rowSet_ne r b' "N" b hne
        rw [ih (rowSet r b' "N") (by rw [hget]; exact h), hget]

theorem cleanRowBooleans_mem (bs : List String) (r : Row) (b : String)
    (hb : b ∈ bs) :
    rowGet (cleanRowBooleans bs r) b =
      if rowGet r b = "Y" ∨ rowGet r b = "N" then rowGet r b else "N" := by
  induction bs generalizing r with
  | nil => cases hb
  | cons b' bs ih =>
      rw [cleanRowBooleans_cons]
      by_cases hbb : b = b'
      · subst hbb
        by_cases h : rowGet r b = "Y" ∨ rowGet r b = "N"
        · rw [if_pos h, if_pos h]
          exact cleanRowBooleans_preserves bs r b h
        · rw [if_neg h, if_neg h]
          have hset : rowGet (rowSet r b "N") b = "N" :=
            rowGet_rowSet_self r b "N"
          have := cleanRowBooleans_preserves bs (rowSet r b "N") b
            (by rw [hset]; exact Or.inr rfl)
          rw [this, hset]
      · have hb2 : b ∈ bs := by
          rcases List.mem_cons.mp hb with h | h
          · exact absurd h hbb
          · exact h
        by_cases h : rowGet r b' = "Y" ∨ rowGet r b' = "N"
        · rw [if_pos h]
          exact ih r hb2
        · rw [if_neg h]
          have hget : rowGet (rowSet r b' "N") b = rowGet r b :=
            rowGet_rowSet_ne r b' "N" b hbb
          rw [ih (rowSet r b' "N") hb2, hget]

/-- C4: on a browser constructed with `clean=True`, every product row
returned by `get_products` has each declared boolean column in
`{"Y","N"}`; the cleaning step coerces a value outside `{"Y","N"}` to
`"N"` and leaves values already in `{"Y","N"}` unchanged. -/
theorem get_products_boolean_normalization :
    (∀ (downloadContent : List Row) (cache_ttl now : ℚ) (s : CacheState),
        s.memo = none →
        ∀ r ∈ (get_products true downloadContent cache_ttl now s).2.1,
          ∀ b ∈ productBooleans, rowGet r b = "Y" ∨ rowGet r b = "N") ∧
    (∀ (r : Row), ∀ b ∈ productBooleans,
        rowGet (cleanRowBooleans productBooleans r) b =
          if rowGet r b = "Y" ∨ rowGet r b = "N" then rowGet r b else "N") := by
  constructor
  · intro downloadContent cache_ttl now s hmemo r hr b hb
    have hres :
        (get_products true downloadContent cache_ttl now s).2.1 =
          clean_products
            (match
              (if is_file_expired s.file cache_ttl now then
                (some (now, downloadContent), 1)
              else (s.file, 0)).1 with
            | some (_, rows) => rows
            | none => []) := by
      unfold get_products getCachedResource
      rw [hmemo]
      rfl
    rw [hres] at hr
    rcases List.mem_map.mp hr with ⟨r0, _, hr0⟩
    subst hr0
    rw [cleanRowBooleans_mem productBooleans r0 b hb]
    by_cases h : rowGet r0 b = "Y" ∨ rowGet r0 b = "N"
    · rw [if_pos h]; exact h
    · rw [if_neg h]; exact Or.inr rfl
  · intro r b hb
    exact cleanRowBooleans_mem productBooleans r b hb

/-- C4 witness: a concrete call on a fresh browser with an empty bad
boolean in the download. -/
theorem get_products_boolean_normalization_witness :
    ∀ r ∈ (get_products true [[("Available", ""), ("SKU", "X1")]] 3600 50
        { memo := none, file := none }).2.1,
      ∀ b ∈ productBooleans, rowGet r b = "Y" ∨ rowGet r b = "N" :=
  get_products_boolean_normalization.1
    [[("Available", ""), ("SKU", "X1")]] 3600 50
    { memo := none, file := none } rfl

/-- C7 (code bug): `_clean_categories` tests
`"Hide This Category From Customers"` but assigns to the key
`"Available"`.  On a category row whose hide-flag is `""`, the hide-flag
is left as `""` and a spurious `"Available"` key is set to `"N"` instead. -/
theorem clean_categories_writes_wrong_key :
    rowGet
        ((clean_categories
          [[("Category Name", "Holiday"),
            ("Hide This Category From Customers", "")]]).getD 0 [])
        "Hide This Category From Customers" = "" ∧
    rowGet
        ((clean_categories
          [[("Category Name", "Holiday"),
            ("Hide This Category From Customers", "")]]).getD 0 [])
        "Available" = "N" ∧
    (clean_categories
        [[("Category Name", "Holiday"),
          ("Hide This Category From Customers", "")]]) =
      [[("Category Name", "Holiday"),
        ("Hide This Category From Customers", ""),
        ("Available", "N")]] := by
  refine ⟨?_, ?_, ?_⟩ <;> decide

/-! ## Cache layer: download gating and memoization -/

/-- C1: `_is_file_expired` returns true exactly when the file is missing
or `now > mtime + cache_ttl`; a getter call on a not-yet-memoized browser
downloads exactly when the cache file is expired; and when the file's
mtime is within `cache_ttl` of now, no download happens and the returned
rows come from the existing file.  `get_products`, `get_categories`,
`get_personalizations` and `get_product_options` are the instances of
`getCachedResource` at their respective `_clean_*` functions. -/
theorem resource_download_iff_expired :
    (∀ (file : Option (ℚ × List Row)) (cache_ttl now : ℚ),
        is_file_expired file cache_ttl now = true ↔
          (file = none ∨
            ∃ mtime rows, file = some (mtime, rows) ∧ mtime + cache_ttl < now)) ∧
    (∀ (cleanFn : List Row → List Row) (clean : Bool)
        (downloadContent : List Row) (cache_ttl now : ℚ) (s : CacheState),
        s.memo = none →
        ((getCachedResource cleanFn clean downloadContent cache_ttl now
            s).2.2.downloads ≠ 0 ↔
          is_file_expired s.file cache_ttl now = true)) ∧
    (∀ (cleanFn : List Row → List Row) (clean : Bool)
        (downloadContent : List Row) (cache_ttl now : ℚ) (s : CacheState)
        (mtime : ℚ) (rows : List Row),
        s.file = some (mtime, rows) → now ≤ mtime + cache_ttl →
        (getCachedResource cleanFn clean downloadContent cache_ttl now
            s).2.2.downloads = 0 ∧
          (s.memo = none →
            (getCachedResource cleanFn clean downloadContent cache_ttl now
                s).2.1 = (if clean then cleanFn rows else rows))) := by
  refine ⟨?_, ?_, ?_⟩
  · intro file cache_ttl now
    cases file with
    | none => simp [is_file_expired]
    | some p =>
        cases p with
        | mk mtime rows =>
            simp only [is_file_expired, decide_eq_true_eq]
            constructor
            · intro h
              exact Or.inr ⟨mtime, rows, rfl, h⟩
            · rintro (h | ⟨m, rs, heq, hlt⟩)
              · cases h
              · cases heq
                exact hlt
  · intro cleanFn clean downloadContent cache_ttl now s hmemo
    unfold getCachedResource
    rw [hmemo]
    by_cases hexp : is_file_expired s.file cache_ttl now = true
    · simp [hexp]
    · simp [hexp]
  · intro cleanFn clean downloadContent cache_ttl now s mtime rows hfile httl
    have hexp' : is_file_expired (some (mtime, rows)) cache_ttl now = false := by
      simp only [is_file_expired, decide_eq_false_iff_not]
      exact not_lt.mpr httl
    have hexp : is_file_expired s.file cache_ttl now = false := by
      rw [hfile]
      exact hexp'
    unfold getCachedResource
    cases hm : s.memo with
    | some cached => simp
    | none =>
        constructor
        · simp [hexp]
        · intro _
          simp [hexp, hfile, hexp']

/-- C1 witness: fresh browser, cache file written at time 100, TTL 3600,
call at time 200 (within TTL): not expired, no download, rows read from
the file. -/
theorem resource_download_iff_expired_witness :
    (is_file_expired (some (100, [[("SKU", "X")]])) 3600 200 = true ↔
      ((some (100, [[("SKU", "X")]]) : Option (ℚ × List Row)) = none ∨
        ∃ mtime rows,
          (some (100, [[("SKU", "X")]]) : Option (ℚ × List Row)) =
            some (mtime, rows) ∧ mtime + 3600 < 200)) ∧
    ((getCachedResource clean_products true [] 3600 200
        { memo := none, file := some (100, [[("SKU", "X")]]) }).2.2.downloads ≠ 0 ↔
      is_file_expired (some (100, [[("SKU", "X")]])) 3600 200 = true) ∧
    (getCachedResource clean_products true [] 3600 200
        { memo := none, file := some (100, [[("SKU", "X")]]) }).2.2.downloads = 0 ∧
    ((getCachedResource clean_products true [] 3600 200
        { memo := none, file := some (100, [[("SKU", "X")]]) }).2.1 =
      (if true then clean_products [[("SKU", "X")]] else [[("SKU", "X")]])) := by
  have h3 :=
    resource_download_iff_expired.2.2 clean_products true [] 3600 200
      { memo := none, file := some (100, [[("SKU", "X")]]) } 100 [[("SKU", "X")]]
      rfl (by norm_num)
  exact ⟨resource_download_iff_expired.1 (some (100, [[("SKU", "X")]])) 3600 200,
    resource_download_iff_expired.2.1 clean_products true [] 3600 200
      { memo := none, file := some (100, [[("SKU", "X")]]) } rfl,
    h3.1, h3.2 rfl⟩

/-- C2: each resource is fetched at most once per browser instance: after
any getter call, the memo holds the returned list, and a further call on
the resulting state (at any later time, with any server content) returns
the same list with the state unchanged and zero downloads and zero disk
reads. -/
theorem resource_memoization :
    ∀ (cleanFn : List Row → List Row) (clean : Bool)
      (downloadContent : List Row) (cache_ttl now : ℚ) (s : CacheState),
      (getCachedResource cleanFn clean downloadContent cache_ttl now
          s).1.memo =
        some (getCachedResource cleanFn clean downloadContent cache_ttl now
          s).2.1 ∧
      ∀ (downloadContent2 : List Row) (cache_ttl2 now2 : ℚ),
        getCachedResource cleanFn clean downloadContent2 cache_ttl2 now2
            (getCachedResource cleanFn clean downloadContent cache_ttl now
              s).1 =
          ((getCachedResource cleanFn clean downloadContent cache_ttl now s).1,
            (getCachedResource cleanFn clean downloadContent cache_ttl now
              s).2.1,
            ⟨0, 0⟩) := by
  intro cleanFn clean downloadContent cache_ttl now s
  have hit : ∀ (s1 : CacheState) (rows : List Row), s1.memo = some rows →
      ∀ (downloadContent2 : List Row) (cache_ttl2 now2 : ℚ),
        getCachedResource cleanFn clean downloadContent2 cache_ttl2 now2 s1 =
          (s1, rows, ⟨0, 0⟩) := by
    intro s1 rows h downloadContent2 cache_ttl2 now2
    simp [getCachedResource, h]
  have hmemo :
      (getCachedResource cleanFn clean downloadContent cache_ttl now
          s).1.memo =
        some (getCachedResource cleanFn clean downloadContent cache_ttl now
          s).2.1 := by
    cases hm : s.memo with
    | some cached => simp [getCachedResource, hm]
    | none =>
        unfold getCachedResource
        rw [hm]
  exact ⟨hmemo, fun downloadContent2 cache_ttl2 now2 =>
    hit _ _ hmemo downloadContent2 cache_ttl2 now2⟩

/-! ## Export poll loop lemmas -/

theorem doExportLoop_some (responses : Nat → ExportResponse) :
    ∀ (fuel k : Nat) (cur : Int) (curs : List Int),
      doExportLoop responses k cur fuel = some curs →
      ∃ m, m < fuel ∧
        curs =
          cur :: (List.range m).map (fun i => (responses (k + i)).current) ∧
        (responses (k + m)).percentComplete = 100 ∧
        ∀ j < m, (responses (k + j)).percentComplete ≠ 100 := by
  intro fuel
  induction fuel with
  | zero =>
      intro k cur curs h
      simp [doExportLoop] at h
  | succ fuel ih =>
      intro k cur curs h
      simp only [doExportLoop] at h
      by_cases hc : (responses k).percentComplete = 100
      · rw [if_pos hc] at h
        have hcurs : curs = [cur] := by
          cases h
          rfl
        refine ⟨0, Nat.succ_pos fuel, ?_, ?_, ?_⟩
        · simpa using hcurs
        · simpa using hc
        · intro j hj
          omega
      · rw [if_neg hc] at h
        rcases Option.map_eq_some'.mp h with ⟨curs', hloop, hcons⟩
        rcases ih (k + 1) (responses k).current curs' hloop with
          ⟨m', hm', hcurs', h100', hbefore'⟩
        refine ⟨m' + 1, by omega, ?_, ?_, ?_⟩
        · rw [← hcons, hcurs']
          rw [List.range_succ_eq_map]
          simp only [List.map_cons, List.map_map, Function.comp]
          rw [Nat.add_zero]
          congr 2
          apply List.map_congr_left
          intro i _
          congr 2
          omega
        · rw [show k + (m' + 1) = k + 1 + m' by omega]
          exact h100'
        · intro j hj
          cases j with
          | zero => simpa using hc
          | succ j' =>
              rw [show k + (j' + 1) = k + 1 + j' by omega]
              exact hbefore' j' (by omega)

theorem doExportLoop_isSome (responses : Nat → ExportResponse) :
    ∀ (fuel k : Nat) (cur : Int),
      (∃ m, m < fuel ∧ (responses (k + m)).percentComplete = 100) →
      (doExportLoop responses k cur fuel).isSome := by
  intro fuel
  induction fuel with
  | zero =>
      rintro k cur ⟨m, hm, _⟩
      omega
  | succ fuel ih =>
      rintro k cur ⟨m, hm, h100⟩
      simp only [doExportLoop]
      by_cases hc : (responses k).percentComplete = 100
      · simp [hc]
      · rw [if_neg hc]
        have hm0 : m ≠ 0 := by
          intro h0
          subst h0
          rw [Nat.add_zero] at h100
          exact hc h100
        obtain ⟨m', rfl⟩ : ∃ m'', m = m'' + 1 := ⟨m - 1, by omega⟩
        have hrec := ih (k + 1) (responses k).current
          ⟨m', by omega, by rw [show k + 1 + m' = k + (m' + 1) by omega]; exact h100⟩
        simpa using hrec

theorem doExportLoop_none (responses : Nat → ExportResponse)
    (hnone : ∀ n, (responses n).percentComplete ≠ 100) :
    ∀ (fuel k : Nat) (cur : Int),
      doExportLoop responses k cur fuel = none := by
  intro fuel
  induction fuel with
  | zero => intro k cur; rfl
  | succ fuel ih =>
      intro k cur
      simp only [doExportLoop]
      rw [if_neg (hnone k), ih (k + 1) (responses k).current]
      rfl

/-- C3: the `_do_export` poll loop starts with cursor `0`, feeds the `current` of each
response unmodified into the next request, and breaks (going
on to fetch the result file) exactly at the first response whose
`percentComplete` equals `100`; when no response ever reaches 100 the
loop runs forever (no fuel suffices). -/
theorem do_export_poll_loop (responses : Nat → ExportResponse) :
    (∀ (fuel : Nat) (curs : List Int),
        do_export responses fuel = some curs →
        curs ≠ [] ∧
        (∀ (i : Nat) (h : i < curs.length),
            curs.get ⟨i, h⟩ = requestCursor responses i) ∧
        (responses (curs.length - 1)).percentComplete = 100 ∧
        (∀ j < curs.length - 1, (responses j).percentComplete ≠ 100)) ∧
    (∀ fuel : Nat,
        (∃ n, n < fuel ∧ (responses n).percentComplete = 100) →
        (do_export responses fuel).isSome) ∧
    ((∀ n, (responses n).percentComplete ≠ 100) →
      ∀ fuel : Nat, do_export responses fuel = none) := by
  refine ⟨?_, ?_, ?_⟩
  · intro fuel curs h
    rcases doExportLoop_some responses fuel 0 0 curs h with
      ⟨m, _, hcurs, h100, hbefore⟩
    subst hcurs
    refine ⟨by simp, ?_, ?_, ?_⟩
    · intro i hi
      rw [List.get_eq_getElem]
      cases i with
      | zero => rfl
      | succ j =>
          simp only [List.getElem_cons_succ, List.getElem_map,
            List.getElem_range]
          rw [Nat.zero_add]
          rfl
    · simp only [List.length_cons, List.length_map, List.length_range,
        Nat.add_sub_cancel]
      simpa using h100
    · intro j hj
      simp only [List.length_cons, List.length_map, List.length_range,
        Nat.add_sub_cancel] at hj
      simpa using hbefore j hj
  · intro fuel ⟨n, hn, h100⟩
    exact doExportLoop_isSome responses fuel 0 0 ⟨n, hn, by simpa using h100⟩
  · intro hnone fuel
    exact doExportLoop_none responses hnone fuel 0 0

/-- C3 witness: a server that answers 50% with cursor 7, then 100%: the
loop sends cursors `[0, 7]` and stops at the second response; a server
stuck at 42% never lets the loop terminate. -/
theorem do_export_poll_loop_witness :
    (∀ (i : Nat) (h : i < ([0, 7] : List Int).length),
        ([0, 7] : List Int).get ⟨i, h⟩ =
          requestCursor
            (fun k => if k = 0 then ⟨7, 50⟩ else ⟨9, 100⟩) i) ∧
    (do_export (fun k => if k = 0 then ⟨7, 50⟩ else ⟨9, 100⟩) 3).isSome ∧
    do_export (fun _ => ⟨5, 42⟩) 5 = none := by
  refine ⟨((do_export_poll_loop
      (fun k => if k = 0 then ⟨7, 50⟩ else ⟨9, 100⟩)).1 3 [0, 7]
      (by decide)).2.1, ?_, ?_⟩
  · exact (do_export_poll_loop
      (fun k => if k = 0 then ⟨7, 50⟩ else ⟨9, 100⟩)).2.1 3
      ⟨1, by omega, by decide⟩
  · exact (do_export_poll_loop (fun _ => ⟨5, 42⟩)).2.2 (fun n => by decide) 5

/-! ## Price calculation -/

/-- C9: `calc_event_price(100, 30, 8.3)` applies the 30% discount
(giving 70), imposes 8.3% sales tax (giving 75.81), rounds to the
nearest dollar (76), and the result is clamped below at `1.0` for all
inputs.  Float arithmetic is modelled exactly over `ℚ`. -/
theorem calc_event_price_example :
    calc_event_price 100 30 (83 / 10) = 76 ∧
    (100 : ℚ) * (1 - 30 / 100) = 70 ∧
    (70 : ℚ) * (1 + (83 / 10) / 100) = 7581 / 100 ∧
    ∀ retail discount tax : ℚ, 1 ≤ calc_event_price retail discount tax := by
  refine ⟨?_, by norm_num, by norm_num, ?_⟩
  · unfold calc_event_price
    norm_num
  · intro retail discount tax
    unfold calc_event_price
    exact le_max_left 1 _

/-! ## `uniquify_header` behaviour -/

/-- C5 counterexample: on `"A,B,A,A"` the code does not leave the first
occurrence unchanged — it does not produce `"A,B,A [2],A [3]\n"`. -/
theorem uniquify_header_spec_example_false :
    uniquify_header "A,B,A,A" ≠ "A,B,A [2],A [3]\n" := by decide

/-- C5 amended: `uniquify_header "A,B,A,A"` produces
`"A [1],B,A [2],A [3]\n"`: every occurrence of a duplicated name gets a
suffix, assigned left to right starting at `" [1]"` on the first
occurrence. -/
theorem uniquify_header_example :
    uniquify_header "A,B,A,A" = "A [1],B,A [2],A [3]\n" := by decide

/-- C6 counterexample: `uniquify_header` is not idempotent: on
`"A,A,A [1]"` the first pass produces `"A [1],A [2],A [1]\n"`, which
still has a duplicate, and a second pass renames again. -/
theorem uniquify_header_not_idempotent :
    uniquify_header (uniquify_header "A,A,A [1]") ≠
      uniquify_header "A,A,A [1]" := by decide

/-! ## Variant derivation lemmas -/

theorem rowGet_foldl_rowSet {α : Type} (f g : α → String) :
    ∀ (ks : List α) (v : Row) (key : String),
      (∀ a ∈ ks, f a ≠ key) →
      rowGet (ks.foldl (fun acc a => rowSet acc (f a) (g a)) v) key =
        rowGet v key := by
  intro ks
  induction ks with
  | nil => intro v key _; rfl
  | cons a ks ih =>
      intro v key h
      rw [List.foldl_cons]
      rw [ih (rowSet v (f a) (g a)) key (fun b hb => h b (List.mem_cons_of_mem a hb))]
      exact rowGet_rowSet_ne v (f a) (g a) key
        (Ne.symm (h a (List.mem_cons_self a ks)))

theorem mkPersVariant_type (p : Row) :
    rowGet (mkPersVariant p) "Variant Type" = "Personalization" := by
  simp only [mkPersVariant]
  rw [rowGet_rowSet_ne _ _ _ _ (by decide)]
  rw [rowGet_rowSet_ne _ _ _ _ (by decide)]
  rw [rowGet_rowSet_ne _ _ _ _ (by decide)]
  rw [rowGet_rowSet_ne _ _ _ _ (by decide)]
  rw [rowGet_foldl_rowSet (fun pk => pk.2)
    (fun pk => rowGet p pk.1) personalization_keys _ _ (by decide)]
  rfl

theorem mkPersVariant_enabled (p : Row) :
    rowGet (mkPersVariant p) "Variant Enabled" =
      if rowGet p "Answer Enabled" = "Y" ∧ rowGet p "Answer Enabled" = "Y"
        then "Y" else "N" := by
  simp only [mkPersVariant]
  rw [rowGet_rowSet_self]

theorem mkPersVariant_enabled_iff (p : Row) :
    rowGet (mkPersVariant p) "Variant Enabled" = "Y" ↔
      rowGet p "Answer Enabled" = "Y" := by
  rw [mkPersVariant_enabled]
  by_cases h : rowGet p "Answer Enabled" = "Y"
  · simp [h]
  · simp [h]

theorem mkPersVariant_name (p : Row) :
    rowGet (mkPersVariant p) "Variant Name" =
      (pySplitOn '|' (rowGet p "Question|Answer")).getD 1 "" := by
  simp only [mkPersVariant]
  rw [rowGet_rowSet_ne _ _ _ _ (by decide)]
  rw [rowGet_rowSet_ne _ _ _ _ (by decide)]
  rw [rowGet_rowSet_self]

theorem mkOptionVariant_type (po : Row) :
    rowGet (mkOptionVariant po) "Variant Type" = "Option" := by
  simp only [mkOptionVariant]
  rw [rowGet_rowSet_ne _ _ _ _ (by decide)]
  rw [rowGet_rowSet_ne _ _ _ _ (by decide)]
  rw [rowGet_rowSet_ne _ _ _ _ (by decide)]
  rw [rowGet_rowSet_ne _ _ _ _ (by decide)]
  rw [rowGet_foldl_rowSet variantKey
    (fun k => rowGet po k) product_option_keys _ _ (by decide)]
  rfl

theorem mkOptionVariant_enabled (po : Row) :
    rowGet (mkOptionVariant po) "Variant Enabled" = "Y" := by
  simp only [mkOptionVariant]
  rw [rowGet_rowSet_self]

theorem mkPersVariant_question_enabled_irrelevant (p : Row) (x : String) :
    rowGet (mkPersVariant (rowSet p "Question Enabled" x))
        "Variant Enabled" =
      rowGet (mkPersVariant p) "Variant Enabled" := by
  rw [mkPersVariant_enabled, mkPersVariant_enabled,
    rowGet_rowSet_ne _ _ _ _ (by decide)]

/-- C8: a product with exactly two matching personalization rows (answers
`"Small"` and `"Large"`) and no matching product-option rows yields
exactly two Variant rows, both with `Variant Type = "Personalization"`
and distinct `Variant Name`s; a product matching neither source yields
zero Variant rows. -/
theorem get_variants_two_personalizations
    (product : Row) (pers opts : List Row) (p1 p2 : Row) (q1 q2 : String)
    (hpers :
      pers.filter
        (matchesProduct (rowGet product "Product Name")
          (rowGet product "SKU")) = [p1, p2])
    (hopts :
      opts.filter
        (matchesProduct (rowGet product "Product Name")
          (rowGet product "SKU")) = [])
    (h1 : pySplitOn '|' (rowGet p1 "Question|Answer") = [q1, "Small"])
    (h2 : pySplitOn '|' (rowGet p2 "Question|Answer") = [q2, "Large"]) :
    variantsForProduct product pers opts =
      [mkPersVariant p1, mkPersVariant p2] ∧
    get_variants [product] pers opts =
      [mkPersVariant p1, mkPersVariant p2] ∧
    rowGet (mkPersVariant p1) "Variant Type" = "Personalization" ∧
    rowGet (mkPersVariant p2) "Variant Type" = "Personalization" ∧
    rowGet (mkPersVariant p1) "Variant Name" = "Small" ∧
    rowGet (mkPersVariant p2) "Variant Name" = "Large" ∧
    rowGet (mkPersVariant p1) "Variant Name" ≠
      rowGet (mkPersVariant p2) "Variant Name" ∧
    (∀ (product' : Row) (pers' opts' : List Row),
        pers'.filter
          (matchesProduct (rowGet product' "Product Name")
            (rowGet product' "SKU")) = [] →
        opts'.filter
          (matchesProduct (rowGet product' "Product Name")
            (rowGet product' "SKU")) = [] →
        variantsForProduct product' pers' opts' = []) := by
  have hmain : variantsForProduct product pers opts =
      [mkPersVariant p1, mkPersVariant p2] := by
    simp only [variantsForProduct]
    rw [hpers, hopts]
    rfl
  have hname1 : rowGet (mkPersVariant p1) "Variant Name" = "Small" := by
    rw [mkPersVariant_name, h1]
    rfl
  have hname2 : rowGet (mkPersVariant p2) "Variant Name" = "Large" := by
    rw [mkPersVariant_name, h2]
    rfl
  refine ⟨hmain, ?_, mkPersVariant_type p1, mkPersVariant_type p2,
    hname1, hname2, ?_, ?_⟩
  · unfold get_variants
    rw [List.flatMap_cons, List.flatMap_nil, hmain]
    rfl
  · rw [hname1, hname2]
    decide
  · intro product' pers' opts' hp ho
    simp only [variantsForProduct]
    rw [hp, ho]
    rfl

/-- C8 witness: a mug with two size personalizations and no options. -/
theorem get_variants_two_personalizations_witness :
    variantsForProduct
        [("Product Name", "Mug"), ("SKU", "M1")]
        [[("Product Name", "Mug"), ("Product SKU", "M1"),
          ("Question|Answer", "Size|Small"), ("Answer Sort Order", "1"),
          ("Answer Enabled", "Y")],
         [("Product Name", "Mug"), ("Product SKU", "M1"),
          ("Question|Answer", "Size|Large"), ("Answer Sort Order", "2"),
          ("Answer Enabled", "Y")]]
        [] =
      [mkPersVariant
        [("Product Name", "Mug"), ("Product SKU", "M1"),
          ("Question|Answer", "Size|Small"), ("Answer Sort Order", "1"),
          ("Answer Enabled", "Y")],
       mkPersVariant
        [("Product Name", "Mug"), ("Product SKU", "M1"),
          ("Question|Answer", "Size|Large"), ("Answer Sort Order", "2"),
          ("Answer Enabled", "Y")]] ∧
    variantsForProduct [("Product Name", "Cup"), ("SKU", "C1")] [] [] = [] := by
  have h := get_variants_two_personalizations
    [("Product Name", "Mug"), ("SKU", "M1")]
    [[("Product Name", "Mug"), ("Product SKU", "M1"),
      ("Question|Answer", "Size|Small"), ("Answer Sort Order", "1"),
      ("Answer Enabled", "Y")],
     [("Product Name", "Mug"), ("Product SKU", "M1"),
      ("Question|Answer", "Size|Large"), ("Answer Sort Order", "2"),
      ("Answer Enabled", "Y")]]
    []
    [("Product Name", "Mug"), ("Product SKU", "M1"),
      ("Question|Answer", "Size|Small"), ("Answer Sort Order", "1"),
      ("Answer Enabled", "Y")]
    [("Product Name", "Mug"), ("Product SKU", "M1"),
      ("Question|Answer", "Size|Large"), ("Answer Sort Order", "2"),
      ("Answer Enabled", "Y")]
    "Size" "Size" (by decide) (by decide) (by decide) (by decide)
  exact ⟨h.1, h.2.2.2.2.2.2.2 [("Product Name", "Cup"), ("SKU", "C1")] [] []
    (by decide) (by decide)⟩

/-- C10: every variant row produced by `get_variants` is either
option-derived, with `Variant Type = "Option"` and `Variant Enabled`
always `"Y"`, or personalization-derived, with
`Variant Type = "Personalization"` and `Variant Enabled = "Y"` exactly
when the `"Answer Enabled"` field of the source row is `"Y"`; the
`"Question Enabled"` field of the source row has no effect on `Variant Enabled`. -/
theorem variant_enabled_semantics :
    (∀ (products pers opts : List Row) (v : Row),
        v ∈ get_variants products pers opts →
        (rowGet v "Variant Type" = "Option" ∧
          rowGet v "Variant Enabled" = "Y") ∨
        (rowGet v "Variant Type" = "Personalization" ∧
          ∃ p ∈ pers, v = mkPersVariant p ∧
            (rowGet v "Variant Enabled" = "Y" ↔
              rowGet p "Answer Enabled" = "Y"))) ∧
    (∀ (p : Row) (x : String),
        rowGet (mkPersVariant (rowSet p "Question Enabled" x))
            "Variant Enabled" =
          rowGet (mkPersVariant p) "Variant Enabled") := by
  constructor
  · intro products pers opts v hv
    rcases List.mem_flatMap.mp hv with ⟨product, _, hvp⟩
    simp only [variantsForProduct] at hvp
    rcases List.mem_append.mp hvp with hmem | hmem
    · rcases List.mem_map.mp hmem with ⟨p, hpf, hpv⟩
      subst hpv
      exact Or.inr ⟨mkPersVariant_type p, p, List.mem_of_mem_filter hpf,
        rfl, mkPersVariant_enabled_iff p⟩
    · rcases List.mem_map.mp hmem with ⟨po, _, hpv⟩
      subst hpv
      exact Or.inl ⟨mkOptionVariant_type po, mkOptionVariant_enabled po⟩
  · exact mkPersVariant_question_enabled_irrelevant

/-- C10 witness: one enabled-answer personalization variant. -/
theorem variant_enabled_semantics_witness :
    (rowGet
        (mkPersVariant
          [("Product Name", "Mug"), ("Product SKU", "M1"),
            ("Question|Answer", "Size|Small"), ("Answer Sort Order", "1"),
            ("Answer Enabled", "Y"), ("Question Enabled", "N")])
        "Variant Type" = "Option" ∧
      rowGet
        (mkPersVariant
          [("Product Name", "Mug"), ("Product SKU", "M1"),
            ("Question|Answer", "Size|Small"), ("Answer Sort Order", "1"),
            ("Answer Enabled", "Y"), ("Question Enabled", "N")])
        "Variant Enabled" = "Y") ∨
    (rowGet
        (mkPersVariant
          [("Product Name", "Mug"), ("Product SKU", "M1"),
            ("Question|Answer", "Size|Small"), ("Answer Sort Order", "1"),
            ("Answer Enabled", "Y"), ("Question Enabled", "N")])
        "Variant Type" = "Personalization" ∧
      ∃ p ∈ [[("Product Name", "Mug"), ("Product SKU", "M1"),
            ("Question|Answer", "Size|Small"), ("Answer Sort Order", "1"),
            ("Answer Enabled", "Y"), ("Question Enabled", "N")]],
        mkPersVariant
            [("Product Name", "Mug"), ("Product SKU", "M1"),
              ("Question|Answer", "Size|Small"), ("Answer Sort Order", "1"),
              ("Answer Enabled", "Y"), ("Question Enabled", "N")] =
          mkPersVariant p ∧
          (rowGet
              (mkPersVariant
                [("Product Name", "Mug"), ("Product SKU", "M1"),
                  ("Question|Answer", "Size|Small"),
                  ("Answer Sort Order", "1"),
                  ("Answer Enabled", "Y"), ("Question Enabled", "N")])
              "Variant Enabled" = "Y" ↔
            rowGet p "Answer Enabled" = "Y")) :=
  variant_enabled_semantics.1
    [[("Product Name", "Mug"), ("SKU", "M1")]]
    [[("Product Name", "Mug"), ("Product SKU", "M1"),
      ("Question|Answer", "Size|Small"), ("Answer Sort Order", "1"),
      ("Answer Enabled", "Y"), ("Question Enabled", "N")]]
    []
    (mkPersVariant
      [("Product Name", "Mug"), ("Product SKU", "M1"),
        ("Question|Answer", "Size|Small"), ("Answer Sort Order", "1"),
        ("Answer Enabled", "Y"), ("Question Enabled", "N")])
    (by decide)

/-! ## `uniquify_header` conditional idempotence -/

theorem renameFrom_length (field : String) :
    ∀ (count : Nat) (l : List String),
      (renameFrom field count l).length = l.length := by
  intro count l
  induction l generalizing count with
  | nil => rfl
  | cons f rest ih =>
      unfold renameFrom
      by_cases h : f = field <;> simp [h, ih]

theorem uniquifyStep_length (fs : List String) (i : Nat) :
    (uniquifyStep fs i).length = fs.length := by
  unfold uniquifyStep
  by_cases h : fs.getD i "" ∈ fs.drop (i + 1)
  · rw [if_pos h]
    rw [List.length_append, List.length_take, renameFrom_length,
      List.length_drop]
    omega
  · rw [if_neg h]

theorem uniquifyFields_length (fs : List String) :
    (uniquifyFields fs).length = fs.length := by
  unfold uniquifyFields
  have h : ∀ (l : List Nat) (gs : List String),
      (l.foldl uniquifyStep gs).length = gs.length := by
    intro l
    induction l with
    | nil => intro gs; rfl
    | cons i l ih =>
        intro gs
        rw [List.foldl_cons, ih, uniquifyStep_length]
  exact h _ fs

theorem splitChars_ne_nil (sep : Char) :
    ∀ cs : List Char, splitChars sep cs ≠ [] := by
  intro cs
  cases cs with
  | nil => simp [splitChars]
  | cons c rest =>
      unfold splitChars
      cases h : splitChars sep rest with
      | nil => simp
      | cons f fs => by_cases hc : c = sep <;> simp [hc]

theorem splitChars_cons (sep c : Char) (rest : List Char) :
    splitChars sep (c :: rest) =
      match splitChars sep rest with
      | [] => [[]]
      | f :: fs => if c = sep then [] :: f :: fs else (c :: f) :: fs := rfl

theorem splitChars_no_sep (sep : Char) :
    ∀ cs : List Char, sep ∉ cs → splitChars sep cs = [cs] := by
  intro cs
  induction cs with
  | nil => intro _; rfl
  | cons c rest ih =>
      intro h
      have hc : ¬ (c = sep) := fun hcc => h (by rw [hcc]; exact List.mem_cons_self _ _)
      have hrest : sep ∉ rest := fun hr => h (List.mem_cons_of_mem c hr)
      rw [splitChars_cons, ih hrest]
      simp [hc]

theorem splitChars_append_sep (sep : Char) :
    ∀ (cs ds : List Char), sep ∉ cs →
      splitChars sep (cs ++ sep :: ds) = cs :: splitChars sep ds := by
  intro cs
  induction cs with
  | nil =>
      intro ds _
      obtain ⟨f, fs, hffs⟩ : ∃ f fs, splitChars sep ds = f :: fs := by
        cases h : splitChars sep ds with
        | nil => exact absurd h (splitChars_ne_nil sep ds)
        | cons f fs => exact ⟨f, fs, rfl⟩
      rw [List.nil_append, splitChars_cons, hffs]
      simp
  | cons c cs' ih =>
      intro ds h
      have hc : ¬ (c = sep) := fun hcc => h (by rw [hcc]; exact List.mem_cons_self _ _)
      have hcs' : sep ∉ cs' := fun hr => h (List.mem_cons_of_mem c hr)
      rw [List.cons_append, splitChars_cons, ih ds hcs']
      simp [hc]

theorem joinChars_cons_cons (sep : Char) (cs d : List Char)
    (ds : List (List Char)) :
    joinChars sep (cs :: d :: ds) = cs ++ sep :: joinChars sep (d :: ds) := rfl

theorem splitChars_joinChars (sep : Char) :
    ∀ css : List (List Char), css ≠ [] → (∀ cs ∈ css, sep ∉ cs) →
      splitChars sep (joinChars sep css) = css := by
  intro css
  induction css with
  | nil => intro h _; exact absurd rfl h
  | cons cs css' ih =>
      intro _ hsep
      cases css' with
      | nil =>
          show splitChars sep (joinChars sep [cs]) = [cs]
          exact splitChars_no_sep sep cs (hsep cs (List.mem_cons_self _ _))
      | cons d ds =>
          rw [joinChars_cons_cons,
            splitChars_append_sep sep cs _ (hsep cs (List.mem_cons_self _ _)),
            ih (by simp) (fun x hx => hsep x (List.mem_cons_of_mem cs hx))]

theorem uniquifyStep_of_nodup (fs : List String) (h : fs.Nodup) (i : Nat) :
    uniquifyStep fs i = fs := by
  unfold uniquifyStep
  have hmem : fs.getD i "" ∉ fs.drop (i + 1) := by
    by_cases hi : i < fs.length
    · rw [List.getD_eq_getElem fs "" hi]
      have hsplit : fs = fs.take (i + 1) ++ fs.drop (i + 1) :=
        (List.take_append_drop (i + 1) fs).symm
      have hnd : (fs.take (i + 1) ++ fs.drop (i + 1)).Nodup := by
        rw [← hsplit]
        exact h
      have hdisj := (List.nodup_append.mp hnd).2.2
      have htake : fs[i] ∈ fs.take (i + 1) := by
        have hlt : i < (fs.take (i + 1)).length := by
          rw [List.length_take]
          omega
        have heq : (fs.take (i + 1))[i] = fs[i] := List.getElem_take fs
        rw [← heq]
        exact List.getElem_mem hlt
      exact fun hc => hdisj htake hc
    · rw [List.drop_eq_nil_of_le (by omega)]
      exact List.not_mem_nil _
  rw [if_neg hmem]

theorem uniquifyFields_of_nodup (fs : List String) (h : fs.Nodup) :
    uniquifyFields fs = fs := by
  unfold uniquifyFields
  have haux : ∀ l : List Nat, l.foldl uniquifyStep fs = fs := by
    intro l
    induction l with
    | nil => rfl
    | cons i l ih =>
        rw [List.foldl_cons, uniquifyStep_of_nodup fs h i, ih]
  exact haux _

theorem dropWhile_head_not (p : Char → Bool) (l : List Char)
    (h : l.head?.all (fun c => !p c) = true) : l.dropWhile p = l := by
  cases l with
  | nil => rfl
  | cons c rest =>
      have hc : p c = false := by
        simp [Option.all] at h
        simp [h]
      simp [List.dropWhile_cons, hc]

theorem stripChars_append_newline (cs : List Char)
    (hh : cs.head?.all (fun c => !isPySpace c) = true)
    (hl : cs.getLast?.all (fun c => !isPySpace c) = true) :
    stripChars (cs ++ ['\n']) = cs := by
  cases cs with
  | nil => rfl
  | cons c cs' =>
      unfold stripChars
      rw [dropWhile_head_not isPySpace ((c :: cs') ++ ['\n'])
        (by simpa using hh)]
      unfold dropTrailingSpace
      rw [show ((c :: cs') ++ ['\n']).reverse = '\n' :: (c :: cs').reverse by
        simp]
      rw [show List.dropWhile isPySpace ('\n' :: (c :: cs').reverse) =
          List.dropWhile isPySpace ((c :: cs').reverse) by
        simp [List.dropWhile_cons, isPySpace]]
      rw [dropWhile_head_not isPySpace ((c :: cs').reverse)
        (by rw [List.head?_reverse]; exact hl)]
      simp

theorem pySplit_ne_nil (s : String) : pySplit s ≠ [] := by
  unfold pySplit pySplitOn
  intro h
  rw [List.map_eq_nil_iff] at h
  exact splitChars_ne_nil ',' s.data h

theorem pyStrip_append_newline (s : String)
    (hh : s.data.head?.all (fun c => !isPySpace c) = true)
    (hl : s.data.getLast?.all (fun c => !isPySpace c) = true) :
    pyStrip (s ++ "\n") = s := by
  unfold pyStrip
  rw [show (s ++ "\n").data = s.data ++ ['\n'] from String.data_append s "\n"]
  rw [stripChars_append_newline s.data hh hl]

theorem pySplit_joinComma (fields : List String) (hne : fields ≠ [])
    (hcomma : ∀ f ∈ fields, ',' ∉ f.data) :
    pySplit (joinComma fields) = fields := by
  unfold pySplit pySplitOn joinComma joinWith
  rw [show ({ data := joinChars ',' (fields.map String.data) } : String).data =
    joinChars ',' (fields.map String.data) from rfl]
  rw [splitChars_joinChars ',' (fields.map String.data)
    (by
      rw [Ne, List.map_eq_nil_iff]
      exact hne)
    (by
      rintro cs hcs
      rcases List.mem_map.mp hcs with ⟨f, hf, rfl⟩
      exact hcomma f hf)]
  rw [List.map_map]
  exact List.map_id'' (fun s => rfl) _

/-- C6 amended: `uniquify_header` applied to its own output is the
identity provided the first pass produced pairwise-distinct field names
(and the joined output has no leading/trailing whitespace to be eaten by
`strip`, and no field contains a comma — both automatic for the headers
the repair is applied to); without the distinctness condition a second
pass can rename again (see the counterexample). -/
theorem uniquify_header_idempotent_of_nodup (line : String)
    (hnodup : (uniquifyFields (pySplit (pyStrip line))).Nodup)
    (hcomma : ∀ f ∈ uniquifyFields (pySplit (pyStrip line)), ',' ∉ f.data)
    (hh : (joinComma (uniquifyFields (pySplit (pyStrip line)))).data.head?.all
        (fun c => !isPySpace c) = true)
    (hl : (joinComma
        (uniquifyFields (pySplit (pyStrip line)))).data.getLast?.all
        (fun c => !isPySpace c) = true) :
    uniquify_header (uniquify_header line) = uniquify_header line := by
  have hgs : uniquify_header line =
      joinComma (uniquifyFields (pySplit (pyStrip line))) ++ "\n" := rfl
  have hstrip : pyStrip (uniquify_header line) =
      joinComma (uniquifyFields (pySplit (pyStrip line))) := by
    rw [hgs]
    exact pyStrip_append_newline _ hh hl
  have hne : uniquifyFields (pySplit (pyStrip line)) ≠ [] := by
    intro h
    have hlen := uniquifyFields_length (pySplit (pyStrip line))
    rw [h] at hlen
    have hnn := pySplit_ne_nil (pyStrip line)
    cases hsp : pySplit (pyStrip line) with
    | nil => exact hnn hsp
    | cons a l =>
        rw [hsp] at hlen
        simp at hlen
  have hsplit : pySplit
      (joinComma (uniquifyFields (pySplit (pyStrip line)))) =
      uniquifyFields (pySplit (pyStrip line)) :=
    pySplit_joinComma _ hne hcomma
  calc uniquify_header (uniquify_header line)
      = joinComma (uniquifyFields (pySplit (pyStrip (uniquify_header line))))
          ++ "\n" := rfl
    _ = joinComma (uniquifyFields (pySplit (pyStrip line))) ++ "\n" := by
          rw [hstrip, hsplit, uniquifyFields_of_nodup _ hnodup]
    _ = uniquify_header line := rfl

/-- C6 witness: on `"A,B,A,A"` the repaired header
`"A [1],B,A [2],A [3]"` has distinct names and a second pass changes
nothing. -/
theorem uniquify_header_idempotent_witness :
    uniquify_header (uniquify_header "A,B,A,A") =
      uniquify_header "A,B,A,A" :=
  uniquify_header_idempotent_of_nodup "A,B,A,A" (by decide) (by decide)
    (by decide) (by decide)

end CCTools
